import Mathlib

/-!
Verification of the Click element core against its specification.

Shallow embedding of the elements under scrutiny:
  * `RatedUnqueue` (src/elements/standard/ratedunqueue.cc) with its
    leaky-bucket rate limiter,
  * `RIPSend` (src/elements/ip/ripsend.cc) with its one-shot timer,
  * `SendPattern` (src/elements/radio/sendpattern.cc),
  * `LocFromFile` (src/elements/grid/locfromfile.cc),
  * `IPGWOptions` (src/elements/ip/ipgwoptions.hh).

Times and rates are embedded as rationals; packets as explicit data.
A fallible pointer (a `Packet *` that may be null) is an `Option`;
dereferencing it is a fallible operation in the `Except` monad, so a
null-pointer dereference shows up as an `Except.error`.
-/

namespace Click

/-- Modelled from the spec: the rate limiter used by `RatedUnqueue` (its
class lives in ratedunqueue.hh / the rate-limiter header, which is not under
src/).  Spec 3: "RateLimiter: accumulated allowance, last-update time, rate".
The allowance accumulates at `rate` units per second, is capped at the one
burst credit, and its floor is zero. -/
structure RateLimiter where
  allowance : ℚ
  lastUpdate : ℚ
  rate : ℚ
  deriving Repr, DecidableEq

namespace RateLimiter

/-- Modelled from the spec: the allowance accumulated by time `now`,
grown at `rate` per second since the last update and capped at the single
burst credit. -/
def accumulated (s : RateLimiter) (now : ℚ) : ℚ :=
  min (s.allowance + s.rate * (now - s.lastUpdate)) 1

/-- Modelled from the spec: "need_update(now) -> bool: read-only check of
whether the next operation is currently permitted."  It is permitted when a
whole unit of allowance has accumulated. -/
def need_update (s : RateLimiter) (now : ℚ) : Bool :=
  decide (1 ≤ s.accumulated now)

/-- Modelled from the spec: "update(now): commits consumption of one unit
and advances internal clock state."  The allowance floor is zero. -/
def update (s : RateLimiter) (now : ℚ) : RateLimiter :=
  { allowance := max (s.accumulated now - 1) 0
    lastUpdate := now
    rate := s.rate }

/-- Modelled from the spec: "set_rate(r): changes rate without resetting
accumulated allowance". -/
def set_rate (s : RateLimiter) (r : ℚ) : RateLimiter :=
  { s with rate := r }

end RateLimiter

/-- Result of one invocation of `RatedUnqueue::run_scheduled`
(src/elements/standard/ratedunqueue.cc lines 66-78): the rate-limiter state
afterwards, whether `input(0).pull()` was invoked, whether `_rate.update()`
was invoked, the packet pushed out `output(0)` (if any), and whether
`_task.fast_reschedule()` was invoked. -/
structure RunResult (α : Type) where
  state : RateLimiter
  pulled : Bool
  updated : Bool
  out : Option α
  rescheduled : Bool
  deriving Repr, DecidableEq

/-- Embedding of `RatedUnqueue::run_scheduled`: read the clock; if
`_rate.need_update(now)` then pull input 0, and if the pull yielded a packet
commit `_rate.update()` and push the packet out output 0; in every case end
with `_task.fast_reschedule()`.  The pull's outcome is the parameter `inp`. -/
def ratedUnqueue_run {α : Type} (s : RateLimiter) (now : ℚ) (inp : Option α) :
    RunResult α :=
  if RateLimiter.need_update s now then
    match inp with
    | some p =>
        { state := RateLimiter.update s now
          pulled := true
          updated := true
          out := some p
          rescheduled := true }
    | none =>
        { state := s
          pulled := true
          updated := false
          out := none
          rescheduled := true }
  else
    { state := s
      pulled := false
      updated := false
      out := none
      rescheduled := true }

/-- Embedding of `RatedUnqueue::set_rate` (ratedunqueue.cc lines 60-64):
it forwards to the rate limiter's `set_rate`. -/
def ratedUnqueue_set_rate (s : RateLimiter) (r : ℚ) : RateLimiter :=
  RateLimiter.set_rate s r

/-- Embedding of the `rate` write handler (ratedunqueue.cc lines 83-92):
parse the text as an unsigned integer (`parsed = none` when `cp_unsigned`
fails); on failure report "rate must be an integer", otherwise call
`set_rate`. -/
def rate_write_handler (parsed : Option ℕ) (s : RateLimiter) :
    Except String RateLimiter :=
  match parsed with
  | none => Except.error "rate must be an integer"
  | some r => Except.ok (ratedUnqueue_set_rate s (r : ℚ))

/-- Embedding of `RatedUnqueue::configure` (ratedunqueue.cc lines 36-45):
parse the unqueueing rate (`parsed = none` when `cp_va_parse` fails,
returning -1); on success call `set_rate` and return 0. -/
def ratedUnqueue_configure (parsed : Option ℕ) (s : RateLimiter) :
    Except Unit RateLimiter :=
  match parsed with
  | none => Except.error ()
  | some r => Except.ok (ratedUnqueue_set_rate s (r : ℚ))

/-- An event in a rate-limiter history, as `RatedUnqueue` produces them:
a scheduled run at time `now` in which the upstream pull would yield a
packet (`avail = true`) or none, or a mid-stream `set_rate` call. -/
inductive REvent where
  | attempt (now : ℚ) (avail : Bool)
  | setRate (now : ℚ) (r : ℚ)
  deriving Repr, DecidableEq

/-- The time at which a history event happens. -/
def REvent.time : REvent → ℚ
  | .attempt now _ => now
  | .setRate now _ => now

/-- One history step: a scheduled run goes through `ratedUnqueue_run`
(the Boolean records whether a unit of rate was committed, i.e. the
operation was permitted); a `set_rate` call only changes the rate. -/
def rstep (s : RateLimiter) : REvent → RateLimiter × Bool
  | .attempt now avail =>
      let r := ratedUnqueue_run s now (if avail then some () else none)
      (r.state, r.updated)
  | .setRate _ r => (ratedUnqueue_set_rate s r, false)

/-- Run a whole history, counting the permitted (committed) operations. -/
def runHist (s : RateLimiter) : List REvent → RateLimiter × ℕ
  | [] => (s, 0)
  | e :: es =>
      let p := rstep s e
      let q := runHist p.1 es
      (q.1, (if p.2 then 1 else 0) + q.2)

/-- Event times lie in the interval `[lo, hi]` and are nondecreasing. -/
def chronoB (lo hi : ℚ) : List REvent → Bool
  | [] => true
  | e :: es =>
      decide (lo ≤ e.time) && decide (e.time ≤ hi) && chronoB e.time hi es

/-- Every `set_rate` event in the history sets a rate at most `r`. -/
def ratesLE (r : ℚ) : List REvent → Bool
  | [] => true
  | .attempt _ _ :: es => ratesLE r es
  | .setRate _ r₀ :: es => decide (r₀ ≤ r) && ratesLE r es

/-- A packet as a plain byte buffer, as `SendPattern` builds it. -/
structure SPacket where
  data : List ℕ
  deriving Repr, DecidableEq

/-- Write value `v` into byte `i` of a possibly-null packet pointer:
`p->data()[i] = v`.  Dereferencing a null pointer is the error case. -/
def pktWrite (p : Option SPacket) (i v : ℕ) : Except Unit (Option SPacket) :=
  match p with
  | none => Except.error ()
  | some q => Except.ok (some { q with data := q.data.set i v })

/-- Embedding of `SendPattern::pull` (src/elements/radio/sendpattern.cc
lines 50-58): allocate `Packet::make(_len)` (outcome `alloc`), write byte
`i & 0xff` at offset `i` for every `i < _len`, and return the packet
pointer (a null pointer returned is the "none" pull result). -/
def sendPattern_pull (len : ℕ) (alloc : Option SPacket) :
    Except Unit (Option SPacket) :=
  (List.range len).foldlM (fun acc i => pktWrite acc i (i &&& 255)) alloc

/-- A packet allocated by `RIPSend` for one RIP advertisement; the header
and payload writes of ripsend.cc lines 64-96 are abstracted to the buffer
length (ip/udp field layout, byte order and checksums are protocol detail
outside the claims). -/
structure RPacket where
  length : ℕ
  deriving Repr, DecidableEq

/-- Modelled from the spec: `Timer::schedule_after_ms` (click/timer.hh is
not under src/).  Spec 4.4: `schedule_after(duration)` arms the timer at the
absolute deadline now + duration; the timer is single-shot and never
auto-rearms. -/
def schedule_after_ms (now ms : ℚ) : ℚ := now + ms

/-- Embedding of `RIPSend::initialize` (src/elements/ip/ripsend.cc lines
52-58): `_timer.schedule_after_ms(3 * 1000)`, arming the timer's first
deadline 3000 ms after initialization time `t0`. -/
def ripsend_init (t0 : ℚ) : ℚ := schedule_after_ms t0 (3 * 1000)

/-- The explicit re-arm at the end of `RIPSend::run_scheduled` (ripsend.cc
line 100): `_timer.schedule_after_ms(30 * 1000)`. -/
def ripsend_rearm (now : ℚ) : ℚ := schedule_after_ms now (30 * 1000)

/-- Embedding of `RIPSend::run_scheduled` (ripsend.cc lines 60-101):
allocate `Packet::make(sizeof(click_ip) + sizeof(click_udp) + 24)` (outcome
`alloc`); immediately `memset(p->data(), 0, p->length())`, which
dereferences the packet pointer; build the RIP advertisement in place
(field writes abstracted); push the packet out output 0; finally re-arm
the timer at now + 30000 ms.  Returns the pushed packet and the new timer
deadline. -/
def ripsend_run (alloc : Option RPacket) (now : ℚ) :
    Except Unit (RPacket × ℚ) :=
  match alloc with
  | none => Except.error ()
  | some p => Except.ok (p, ripsend_rearm now)

/-- Modelled from the spec: a valid sequence of firing times for RIPSend's
timer armed with deadline `d`.  Spec 4.4: a pending timer fires at or after
its deadline and never auto-rearms, and each `RIPSend::run_scheduled`
firing explicitly re-arms at now + 30000 ms, so after a firing at `t` the
next deadline is `ripsend_rearm t`. -/
def validFirings (d : ℚ) : List ℚ → Bool
  | [] => true
  | t :: ts => decide (d ≤ t) && validFirings (ripsend_rearm t) ts

/-- One trace entry of `LocFromFile` (struct delta of locfromfile.hh):
an interval together with a latitude and longitude. -/
structure Delta where
  interval : ℚ
  lat : ℚ
  lon : ℚ
  deriving Repr, DecidableEq

/-- The failure cases of `LocFromFile::configure` (locfromfile.cc lines
45-74); `badArgs` is `cp_va_parse` failing, the others are the element's
own `errh->error` calls. -/
inductive ConfError where
  | badArgs
  | cannotOpen
  | cannotParse
  | noLocations
  deriving Repr, DecidableEq

/-- The human-readable message accompanying each negative return of
`LocFromFile::configure` (the `%s` stands for the file name; `badArgs`
carries whatever message `cp_va_parse` reported). -/
def ConfError.message : ConfError → String
  | .badArgs => "expected filename"
  | .cannotOpen => "cannot open file %s"
  | .cannotParse => "cannot parse a line in file %s"
  | .noLocations => "no locations in file %s"

/-- Embedding of the fgets/sscanf loop of `LocFromFile::configure`
(locfromfile.cc lines 57-65): each file line is represented by its sscanf
outcome, `some d` when the line parses as three numbers and `none`
otherwise; parsed deltas are pushed onto `_deltas` until a line fails, in
which case the loop aborts with "cannot parse". -/
def readDeltas : List (Option Delta) → Except ConfError (List Delta)
  | [] => Except.ok []
  | none :: _ => Except.error ConfError.cannotParse
  | some d :: rest =>
      match readDeltas rest with
      | Except.error e => Except.error e
      | Except.ok ds => Except.ok (d :: ds)

/-- Embedding of `LocFromFile::configure` (locfromfile.cc lines 45-74).
`argsOk` is the outcome of `cp_va_parse`; `file` is `none` when `fopen`
fails and otherwise holds the per-line sscanf outcomes.  On success the
parsed deltas are returned (the element stores them in `_deltas`). -/
def locFromFile_configure (argsOk : Bool)
    (file : Option (List (Option Delta))) : Except ConfError (List Delta) :=
  if argsOk then
    match file with
    | none => Except.error ConfError.cannotOpen
    | some lines =>
        match readDeltas lines with
        | Except.error e => Except.error e
        | Except.ok ds =>
            if ds.length < 1 then Except.error ConfError.noLocations
            else Except.ok ds
  else Except.error ConfError.badArgs

/-- The state of a `LocFromFile` element: the parsed trace `_deltas`, the
cursor `_next`, and the base time `_t0`. -/
structure LocFromFile where
  deltas : List Delta
  next : ℕ
  t0 : ℚ
  deriving Repr, DecidableEq

/-- A `LocFromFile` element after construction and a successful configure:
the constructor (locfromfile.cc lines 25-30) sets `_next = 0`, and
configure fills `_deltas`. -/
def locFromFile_mk (ds : List Delta) (t0 : ℚ) : LocFromFile := ⟨ds, 0, t0⟩

/-- Embedding of `LocFromFile::choose_new_leg` (locfromfile.cc lines
78-88): read `*nlat`, `*nlon` from entry `_next` and compute
`*nt = _t0 + _deltas[_next].interval` (the C++ Vector indexing is
unchecked; it is embedded with a default that is never reached under the
cursor invariant), then increment `_next`, wrapping it to 0 when it
reaches `_deltas.size()`. -/
def choose_new_leg (s : LocFromFile) : (ℚ × ℚ × ℚ) × LocFromFile :=
  let d := s.deltas.getD s.next ⟨0, 0, 0⟩
  ((d.lat, d.lon, s.t0 + d.interval),
   { s with next := if s.deltas.length ≤ s.next + 1 then 0 else s.next + 1 })

/-- The state transition of one `choose_new_leg` call. -/
def locFromFile_step (s : LocFromFile) : LocFromFile := (choose_new_leg s).2

/-- The cursor invariant of `LocFromFile`: the trace is non-empty and
`_next` is in bounds. -/
abbrev cursorInv (s : LocFromFile) : Prop :=
  0 < s.deltas.length ∧ s.next < s.deltas.length

/-- A record-route option inside an IP header: the byte offset of the
option's first byte within the packet, and the option's pointer and length
fields.  The option area is full when the pointer points past the
option's last slot (`len < ptr`). -/
structure RROption where
  off : ℕ
  ptr : ℕ
  len : ℕ
  deriving Repr, DecidableEq

/-- A packet as `IPGWOptions` sees it: an optional record-route option and
the param_off annotation (unset until a parameter problem is found). -/
structure IPPacket where
  rr : Option RROption
  paramOff : Option ℕ
  deriving Repr, DecidableEq

/-- The record-route slot area is full: the pointer field points past the
option's length, so no free slot remains. -/
def RROption.isFull (o : RROption) : Bool := decide (o.len < o.ptr)

/-- The outcome of processing a packet's options: forward the (possibly
rewritten) packet on the primary output, or report a parameter problem,
with the packet on the primary output and a diagnostic copy on the
secondary output. -/
inductive GWResult where
  | forward (p : IPPacket)
  | problem (primary : IPPacket) (diag : IPPacket)
  deriving Repr, DecidableEq

/-- Modelled from the spec: `IPGWOptions::handle_options` is only declared
in src/elements/ip/ipgwoptions.hh (lines 36-60); its body is not under
src/.  Per the header documentation and spec Scenario 3: a packet whose
record-route slot area is already full is returned unmodified on the
primary output together with a diagnostic on the secondary output whose
param_off annotation records the offset of the first byte of the offending
option (so ICMPError can point the Parameter Problem at the erroneous
byte); a record route with free space records the router address there
(the address write is abstracted to advancing the pointer one slot). -/
def handle_options (p : IPPacket) : GWResult :=
  match p.rr with
  | none => GWResult.forward p
  | some o =>
      if o.isFull then
        GWResult.problem p { p with paramOff := some o.off }
      else
        GWResult.forward { p with rr := some { o with ptr := o.ptr + 4 } }

/-- A run of `n` pull attempts starting at time `t`, spaced `dt` apart,
each with a packet available upstream. -/
def uniformAttempts : ℕ → ℚ → ℚ → List REvent
  | 0, _, _ => []
  | n + 1, t, dt => REvent.attempt t true :: uniformAttempts n (t + dt) dt

/-- Scenario 1's history: 100 pull attempts spread uniformly over 5
seconds (one every 1/20 s), each with a packet available upstream. -/
def scenarioEvents : List REvent := uniformAttempts 100 0 (1 / 20)

/-- Scenario 1's rate limiter: configured at 10 ops/sec, starting at time 0
with the full single burst credit. -/
def scenarioLimiter : RateLimiter := ⟨1, 0, 10⟩

/-! Theorems. -/

/-- Weakening the lower bound of a chronological history. -/
theorem chronoB_mono_lo {lo lo' hi : ℚ} (es : List REvent) (h : lo' ≤ lo)
    (hc : chronoB lo hi es = true) : chronoB lo' hi es = true := by
  cases es with
  | nil => rfl
  | cons e es =>
      simp only [chronoB, Bool.and_eq_true, decide_eq_true_eq] at hc ⊢
      exact ⟨⟨le_trans h hc.1.1, hc.1.2⟩, hc.2⟩

/-- The key leaky-bucket bound: over a chronological history whose events
all happen by time `b` and whose rates never exceed `r`, the number of
committed operations is at most the starting allowance plus `r` times the
elapsed time. -/
theorem runHist_le (r b : ℚ) (hr : 0 ≤ r) :
    ∀ (es : List REvent) (s : RateLimiter), 0 ≤ s.allowance →
      s.rate ≤ r → s.lastUpdate ≤ b → ratesLE r es = true →
      chronoB s.lastUpdate b es = true →
      ((runHist s es).2 : ℚ) ≤ s.allowance + r * (b - s.lastUpdate) := by
  intro es
  induction es with
  | nil =>
      intro s ha _ hlast _ _
      have hnn : 0 ≤ r * (b - s.lastUpdate) := mul_nonneg hr (by linarith)
      simp only [runHist, Nat.cast_zero]
      linarith
  | cons e es ih =>
      intro s ha hrate hlast hrates hchrono
      cases e with
      | attempt now avail =>
          simp only [chronoB, REvent.time, Bool.and_eq_true,
            decide_eq_true_eq] at hchrono
          obtain ⟨⟨hlo, hhi⟩, hch⟩ := hchrono
          simp only [ratesLE] at hrates
          by_cases hnu : RateLimiter.need_update s now = true
          · cases avail with
            | false =>
                have hstate : rstep s (REvent.attempt now false) =
                    (s, false) := by
                  simp [rstep, ratedUnqueue_run, hnu]
                simp only [runHist, hstate, Bool.false_eq_true, if_false,
                  zero_add]
                exact ih s ha hrate hlast hrates
                  (chronoB_mono_lo es hlo hch)
            | true =>
                have hacc : 1 ≤ RateLimiter.accumulated s now := by
                  simpa [RateLimiter.need_update] using hnu
                have hacc1 : RateLimiter.accumulated s now ≤ 1 :=
                  min_le_right _ _
                have hx : (1 : ℚ) ≤
                    s.allowance + s.rate * (now - s.lastUpdate) :=
                  le_trans hacc (min_le_left _ _)
                have hzero :
                    (RateLimiter.update s now).allowance = 0 := by
                  have heq : RateLimiter.accumulated s now = 1 :=
                    le_antisymm hacc1 hacc
                  simp [RateLimiter.update, heq]
                have h0' : 0 ≤ (RateLimiter.update s now).allowance :=
                  le_max_right _ _
                have hrate' : (RateLimiter.update s now).rate ≤ r := hrate
                have hlast' : (RateLimiter.update s now).lastUpdate ≤ b := hhi
                have hch' :
                    chronoB (RateLimiter.update s now).lastUpdate b es =
                      true := hch
                have hn := ih (RateLimiter.update s now) h0' hrate' hlast'
                  hrates hch'
                rw [hzero] at hn
                have hupd :
                    (RateLimiter.update s now).lastUpdate = now := rfl
                rw [hupd] at hn
                have hstate : rstep s (REvent.attempt now true) =
                    (RateLimiter.update s now, true) := by
                  simp [rstep, ratedUnqueue_run, hnu]
                have hmul : s.rate * (now - s.lastUpdate) ≤
                    r * (now - s.lastUpdate) :=
                  mul_le_mul_of_nonneg_right hrate (by linarith)
                have hsplit : r * (b - s.lastUpdate) =
                    r * (b - now) + r * (now - s.lastUpdate) := by ring
                simp only [runHist, hstate, if_true]
                push_cast
                linarith
          · have hnu' : RateLimiter.need_update s now = false := by
              simpa using hnu
            have hstate : rstep s (REvent.attempt now avail) = (s, false) := by
              cases avail <;> simp [rstep, ratedUnqueue_run, hnu']
            simp only [runHist, hstate, Bool.false_eq_true, if_false,
              zero_add]
            exact ih s ha hrate hlast hrates
              (chronoB_mono_lo es hlo hch)
      | setRate t r₀ =>
          simp only [chronoB, REvent.time, Bool.and_eq_true,
            decide_eq_true_eq] at hchrono
          obtain ⟨⟨hlo, hhi⟩, hch⟩ := hchrono
          simp only [ratesLE, Bool.and_eq_true, decide_eq_true_eq] at hrates
          obtain ⟨hr₀, hrates'⟩ := hrates
          simp only [runHist, rstep, ratedUnqueue_set_rate,
            RateLimiter.set_rate, Bool.false_eq_true, if_false]
          simpa using ih { s with rate := r₀ } ha hr₀ hlast hrates'
            (chronoB_mono_lo es hlo hch)

/-- A uniform run of attempts contains no `set_rate` event, so any rate
bound holds over it. -/
theorem ratesLE_uniform (r dt : ℚ) :
    ∀ (n : ℕ) (t : ℚ), ratesLE r (uniformAttempts n t dt) = true := by
  intro n
  induction n with
  | zero => intro t; rfl
  | succ n ih => intro t; simpa [uniformAttempts, ratesLE] using ih (t + dt)

/-- A uniform run of attempts with nonnegative spacing is chronological. -/
theorem chronoB_uniform (hi dt : ℚ) (hdt : 0 ≤ dt) :
    ∀ (n : ℕ) (t lo : ℚ), lo ≤ t → t + n * dt ≤ hi + dt →
      chronoB lo hi (uniformAttempts n t dt) = true := by
  intro n
  induction n with
  | zero => intro t lo _ _; rfl
  | succ n ih =>
      intro t lo hlo hbound
      have hexp : t + ((n : ℚ) + 1) * dt = (t + dt) + (n : ℚ) * dt := by ring
      have hcast : ((n + 1 : ℕ) : ℚ) = (n : ℚ) + 1 := by push_cast; ring
      rw [hcast, hexp] at hbound
      have hnn : 0 ≤ (n : ℚ) * dt := mul_nonneg (Nat.cast_nonneg n) hdt
      simp only [uniformAttempts, chronoB, REvent.time, Bool.and_eq_true,
        decide_eq_true_eq]
      refine ⟨⟨hlo, by linarith⟩, ih (t + dt) t (by linarith) hbound⟩

/-- The leaky-bucket bound over an arbitrary observation window `[a, b]`
opening no earlier than the limiter's last update. -/
theorem runHist_window_le (r b : ℚ) (hr : 0 ≤ r) :
    ∀ (es : List REvent) (s : RateLimiter) (a : ℚ), 0 ≤ s.allowance →
      s.allowance ≤ 1 → s.rate ≤ r → s.lastUpdate ≤ a → a ≤ b →
      ratesLE r es = true → chronoB a b es = true →
      ((runHist s es).2 : ℚ) ≤ r * (b - a) + 1 := by
  intro es
  induction es with
  | nil =>
      intro s a _ _ _ _ hab _ _
      have hnn : 0 ≤ r * (b - a) := mul_nonneg hr (by linarith)
      simp only [runHist, Nat.cast_zero]
      linarith
  | cons e es ih =>
      intro s a h0 h1 hrate hlast hab hrates hchrono
      cases e with
      | attempt now avail =>
          simp only [chronoB, REvent.time, Bool.and_eq_true,
            decide_eq_true_eq] at hchrono
          obtain ⟨⟨hlo, hhi⟩, hch⟩ := hchrono
          simp only [ratesLE] at hrates
          by_cases hnu : RateLimiter.need_update s now = true
          · cases avail with
            | false =>
                have hstate : rstep s (REvent.attempt now false) =
                    (s, false) := by
                  simp [rstep, ratedUnqueue_run, hnu]
                simp only [runHist, hstate, Bool.false_eq_true, if_false,
                  zero_add]
                exact ih s a h0 h1 hrate hlast hab hrates
                  (chronoB_mono_lo es hlo hch)
            | true =>
                have hacc : 1 ≤ RateLimiter.accumulated s now := by
                  simpa [RateLimiter.need_update] using hnu
                have hacc1 : RateLimiter.accumulated s now ≤ 1 :=
                  min_le_right _ _
                have hzero :
                    (RateLimiter.update s now).allowance = 0 := by
                  have heq : RateLimiter.accumulated s now = 1 :=
                    le_antisymm hacc1 hacc
                  simp [RateLimiter.update, heq]
                have h0' : 0 ≤ (RateLimiter.update s now).allowance :=
                  le_max_right _ _
                have hn := runHist_le r b hr es (RateLimiter.update s now)
                  h0' hrate hhi hrates hch
                rw [hzero] at hn
                have hupd :
                    (RateLimiter.update s now).lastUpdate = now := rfl
                rw [hupd] at hn
                have hstate : rstep s (REvent.attempt now true) =
                    (RateLimiter.update s now, true) := by
                  simp [rstep, ratedUnqueue_run, hnu]
                have hshrink : r * (b - now) ≤ r * (b - a) :=
                  mul_le_mul_of_nonneg_left (by linarith) hr
                simp only [runHist, hstate, if_true]
                push_cast
                linarith
          · have hnu' : RateLimiter.need_update s now = false := by
              simpa using hnu
            have hstate : rstep s (REvent.attempt now avail) = (s, false) := by
              cases avail <;> simp [rstep, ratedUnqueue_run, hnu']
            simp only [runHist, hstate, Bool.false_eq_true, if_false,
              zero_add]
            exact ih s a h0 h1 hrate hlast hab hrates
              (chronoB_mono_lo es hlo hch)
      | setRate t r₀ =>
          simp only [chronoB, REvent.time, Bool.and_eq_true,
            decide_eq_true_eq] at hchrono
          obtain ⟨⟨hlo, hhi⟩, hch⟩ := hchrono
          simp only [ratesLE, Bool.and_eq_true, decide_eq_true_eq] at hrates
          obtain ⟨hr₀, hrates'⟩ := hrates
          simp only [runHist, rstep, ratedUnqueue_set_rate,
            RateLimiter.set_rate, Bool.false_eq_true, if_false]
          simpa using ih { s with rate := r₀ } a h0 h1 hr₀ hlast hab hrates'
            (chronoB_mono_lo es hlo hch)

/-- C1: for every history of rate-limiter operations as `RatedUnqueue`
performs them (scheduled runs interleaved with mid-stream `set_rate`
calls) falling inside any time interval `[a, b]` that opens no earlier
than the limiter's last update, the number of permitted (committed)
operations never exceeds `r` times the interval's length plus the single
burst credit, where `r` bounds every rate configured during the
history. -/
theorem ratedUnqueue_rate_bound (s : RateLimiter) (es : List REvent)
    (r a b : ℚ) (hr : 0 ≤ r) (h0 : 0 ≤ s.allowance) (h1 : s.allowance ≤ 1)
    (hrate : s.rate ≤ r) (hlast : s.lastUpdate ≤ a) (hab : a ≤ b)
    (hrates : ratesLE r es = true) (hchrono : chronoB a b es = true) :
    ((runHist s es).2 : ℚ) ≤ r * (b - a) + 1 :=
  runHist_window_le r b hr es s a h0 h1 hrate hlast hab hrates hchrono

/-- Witness for C1, Scenario 1: a limiter at 10 ops/sec facing 100
attempts spread uniformly over 5 seconds permits at most 51 operations. -/
theorem ratedUnqueue_rate_bound_witness :
    (runHist scenarioLimiter scenarioEvents).2 ≤ 51 := by
  have hch : chronoB 0 5 scenarioEvents = true := by
    have h := chronoB_uniform 5 (1 / 20) (by norm_num) 100 0 0
      (by norm_num) (by norm_num)
    simpa [scenarioEvents] using h
  have h := ratedUnqueue_rate_bound scenarioLimiter scenarioEvents 10 0 5
    (by norm_num) (by norm_num [scenarioLimiter])
    (by norm_num [scenarioLimiter]) (by norm_num [scenarioLimiter])
    (by norm_num [scenarioLimiter]) (by norm_num)
    (by simpa [scenarioEvents] using ratesLE_uniform 10 (1 / 20) 100 0)
    hch
  have h51 : ((runHist scenarioLimiter scenarioEvents).2 : ℚ) ≤ 51 := by
    have heq : (10 : ℚ) * (5 - 0) + 1 = 51 := by norm_num
    linarith [h, heq.le]
  exact_mod_cast h51

/-- C2 counterexample: with the limiter at rate 0 and no allowance, a
scheduled run at time 5 has no useful work — `need_update` refuses and
nothing is pulled or pushed — yet `run_scheduled` still fast-reschedules
the task, refuting the claim that it steps aside in that case. -/
theorem ratedUnqueue_no_work_still_reschedules :
    RateLimiter.need_update ⟨0, 0, 0⟩ 5 = false ∧
    (ratedUnqueue_run ⟨0, 0, 0⟩ 5 (none : Option ℕ)).out = none ∧
    (ratedUnqueue_run ⟨0, 0, 0⟩ 5 (none : Option ℕ)).rescheduled = true := by
  have hnu : RateLimiter.need_update ⟨0, 0, 0⟩ 5 = false := by
    norm_num [RateLimiter.need_update, RateLimiter.accumulated]
  refine ⟨hnu, ?_, ?_⟩ <;> simp [ratedUnqueue_run, hnu]

/-- C2 amended: `RatedUnqueue::run_scheduled` does check its admission
condition (`need_update`) before committing to pull, but it
unconditionally calls `fast_reschedule` at the end of every scheduled run,
even when the rate limiter refused or the pull returned none; it never
steps aside. -/
theorem ratedUnqueue_always_fast_reschedules (α : Type) (s : RateLimiter)
    (now : ℚ) (inp : Option α) :
    (ratedUnqueue_run s now inp).rescheduled = true ∧
    (ratedUnqueue_run s now inp).pulled = RateLimiter.need_update s now := by
  by_cases h : RateLimiter.need_update s now = true
  · cases inp <;> simp [ratedUnqueue_run, h]
  · have h' : RateLimiter.need_update s now = false := by simpa using h
    simp [ratedUnqueue_run, h']

/-- C3 (code bug): when `Packet::make` fails, neither `SendPattern::pull`
(for any positive configured length) nor `RIPSend::run_scheduled`
propagates an absent-packet result upward: both dereference the absent
packet — SendPattern writes its fill bytes through it, RIPSend memsets
it — embedded as the `Except.error` (crash) outcome instead of a
"produced nothing" result. -/
theorem alloc_failure_dereferences :
    (∀ len : ℕ, 0 < len → sendPattern_pull len none = Except.error ()) ∧
    (∀ now : ℚ, ripsend_run none now = Except.error ()) := by
  constructor
  · intro len hlen
    cases len with
    | zero => omega
    | succ n =>
        simp only [sendPattern_pull]
        rw [List.range_succ_eq_map]
        rfl
  · intro now
    rfl

/-- Witness for C3: the crash at the concrete failing inputs — SendPattern
configured with length 1, RIPSend firing at time 0, allocation failing. -/
theorem alloc_failure_dereferences_witness :
    sendPattern_pull 1 none = Except.error () ∧
    ripsend_run none 0 = Except.error () :=
  ⟨alloc_failure_dereferences.1 1 (by norm_num),
   alloc_failure_dereferences.2 0⟩

/-- Consecutive firing times of RIPSend's explicitly re-armed timer are at
least 30000 ms apart. -/
theorem validFirings_spacing :
    ∀ (ts : List ℚ) (d : ℚ), validFirings d ts = true →
      List.Chain' (fun a b : ℚ => a + 30000 ≤ b) ts := by
  intro ts
  induction ts with
  | nil => intro d _; exact List.chain'_nil
  | cons t ts ih =>
      intro d hv
      simp only [validFirings, Bool.and_eq_true, decide_eq_true_eq] at hv
      obtain ⟨_, hv'⟩ := hv
      cases ts with
      | nil => simp
      | cons u us =>
          have hch := ih (ripsend_rearm t) hv'
          have hv'' := hv'
          simp only [validFirings, Bool.and_eq_true,
            decide_eq_true_eq] at hv''
          refine List.chain'_cons.mpr ⟨?_, hch⟩
          have := hv''.1
          simp only [ripsend_rearm, schedule_after_ms] at this
          linarith

/-- C4: RIPSend's timer first arms 3000 ms after initialization; each
firing of `run_scheduled` explicitly re-arms the timer at now + 30000 ms
(the modelled timer is single-shot and never auto-rearms); consequently
any two consecutive firings lie at least 30000 ms apart. -/
theorem ripsend_timer_spacing (t0 : ℚ) :
    ripsend_init t0 = t0 + 3000 ∧
    (∀ (p : RPacket) (now : ℚ),
      ripsend_run (some p) now = Except.ok (p, now + 30000)) ∧
    (∀ ts : List ℚ, validFirings (ripsend_init t0) ts = true →
      List.Chain' (fun a b : ℚ => a + 30000 ≤ b) ts) := by
  refine ⟨by norm_num [ripsend_init, schedule_after_ms], ?_, ?_⟩
  · intro p now
    norm_num [ripsend_run, ripsend_rearm, schedule_after_ms]
  · intro ts hv
    exact validFirings_spacing ts _ hv

/-- Witness for C4: the firing sequence 3000, 33000, 70000 ms respects the
first deadline and each re-arm, and is spaced at least 30000 ms apart. -/
theorem ripsend_timer_spacing_witness :
    validFirings (ripsend_init 0) [3000, 33000, 70000] = true ∧
    List.Chain' (fun a b : ℚ => a + 30000 ≤ b) [3000, 33000, 70000] := by
  have hv : validFirings (ripsend_init 0) [3000, 33000, 70000] =
      true := by
    norm_num [validFirings, ripsend_init, ripsend_rearm,
      schedule_after_ms]
  exact ⟨hv, (ripsend_timer_spacing 0).2.2 [3000, 33000, 70000] hv⟩

/-- C5: in every scheduled run of RatedUnqueue, `need_update` is the pure
(read-only) admission check; input 0 is pulled exactly when it returned
true; `update` commits one rate unit exactly when the pull returned a
packet, which is then pushed out output 0; and a pull returning none
commits no rate consumption, changes no limiter state, and pushes
nothing. -/
theorem ratedUnqueue_run_protocol (α : Type) (s : RateLimiter) (now : ℚ)
    (inp : Option α) :
    (ratedUnqueue_run s now inp).pulled = RateLimiter.need_update s now ∧
    (ratedUnqueue_run s now inp).updated =
      (RateLimiter.need_update s now && inp.isSome) ∧
    (ratedUnqueue_run s now inp).out =
      (if RateLimiter.need_update s now && inp.isSome then inp
       else none) ∧
    (ratedUnqueue_run s now inp).state =
      (if RateLimiter.need_update s now && inp.isSome then
        RateLimiter.update s now
       else s) := by
  by_cases h : RateLimiter.need_update s now = true
  · cases inp <;> simp [ratedUnqueue_run, h]
  · have h' : RateLimiter.need_update s now = false := by simpa using h
    cases inp <;> simp [ratedUnqueue_run, h']

/-- The full `LocFromFile` state after `k` calls to `choose_new_leg` on the
three-entry trace: only the cursor changes, cycling mod 3. -/
theorem locFromFile_iterate (t0 : ℚ) (d1 d2 d3 : Delta) :
    ∀ k : ℕ, locFromFile_step^[k] (locFromFile_mk [d1, d2, d3] t0) =
      ⟨[d1, d2, d3], k % 3, t0⟩ := by
  intro k
  induction k with
  | zero => simp [locFromFile_mk]
  | succ k ih =>
      rw [Function.iterate_succ_apply', ih]
      simp only [locFromFile_step, choose_new_leg, List.length_cons,
        List.length_nil, LocFromFile.mk.injEq]
      refine ⟨trivial, ?_, trivial⟩
      split <;> omega

/-- C6: with trace intervals [5, 10, 7], the cursor cycles with period 3 —
the (k+1)-st call to `choose_new_leg` reads entry k mod 3, so the 4th call
(k = 3) is back at entry 0 — and every call computes its target time as
the base time `_t0` plus the current entry's interval. -/
theorem locFromFile_trace_cycle (t0 : ℚ) (d1 d2 d3 : Delta)
    (h1 : d1.interval = 5) (h2 : d2.interval = 10) (h3 : d3.interval = 7)
    (k : ℕ) :
    (locFromFile_step^[k] (locFromFile_mk [d1, d2, d3] t0)).next = k % 3 ∧
    (choose_new_leg (locFromFile_step^[k]
        (locFromFile_mk [d1, d2, d3] t0))).1.2.2 =
      t0 + [(5 : ℚ), 10, 7].getD (k % 3) 0 := by
  rw [locFromFile_iterate t0 d1 d2 d3 k]
  refine ⟨rfl, ?_⟩
  rcases (by omega : k % 3 = 0 ∨ k % 3 = 1 ∨ k % 3 = 2) with h | h | h <;>
    simp [choose_new_leg, h, h1, h2, h3]

/-- Witness for C6: on the concrete trace, the 4th call (k = 3) finds the
cursor back at entry 0 and computes target time base + 5. -/
theorem locFromFile_trace_cycle_witness :
    (locFromFile_step^[3] (locFromFile_mk
      [⟨5, 0, 0⟩, ⟨10, 0, 0⟩, ⟨7, 0, 0⟩] 0)).next = 3 % 3 ∧
    (choose_new_leg (locFromFile_step^[3] (locFromFile_mk
      [⟨5, 0, 0⟩, ⟨10, 0, 0⟩, ⟨7, 0, 0⟩] 0))).1.2.2 =
      0 + [(5 : ℚ), 10, 7].getD (3 % 3) 0 :=
  locFromFile_trace_cycle 0 ⟨5, 0, 0⟩ ⟨10, 0, 0⟩ ⟨7, 0, 0⟩ rfl rfl rfl 3

/-- C7: a packet whose single record-route slot area is already full is
returned unmodified on the primary output, and a diagnostic goes to the
secondary output whose param_off annotation is the offset of the first
byte of the offending option. -/
theorem ipgwoptions_full_rr (p : IPPacket) (o : RROption)
    (hrr : p.rr = some o) (hfull : o.isFull = true) :
    handle_options p =
      GWResult.problem p { p with paramOff := some o.off } := by
  simp [handle_options, hrr, hfull]

/-- Witness for C7: a packet with a full record-route option at byte
offset 20 (pointer 8 past length 7) produces the unmodified packet and a
diagnostic whose param_off is 20. -/
theorem ipgwoptions_full_rr_witness :
    handle_options ⟨some ⟨20, 8, 7⟩, none⟩ =
      GWResult.problem ⟨some ⟨20, 8, 7⟩, none⟩
        ⟨some ⟨20, 8, 7⟩, some 20⟩ :=
  ipgwoptions_full_rr ⟨some ⟨20, 8, 7⟩, none⟩ ⟨20, 8, 7⟩ rfl (by decide)

/-- C8: `set_rate` — whether reached from `configure` or from the "rate"
write handler — changes only the limiter's rate field; the accumulated
allowance and the last-update time are untouched. -/
theorem ratedUnqueue_set_rate_frame (s : RateLimiter) (r : ℚ) (n : ℕ) :
    (ratedUnqueue_set_rate s r).allowance = s.allowance ∧
    (ratedUnqueue_set_rate s r).lastUpdate = s.lastUpdate ∧
    (ratedUnqueue_set_rate s r).rate = r ∧
    rate_write_handler (some n) s =
      Except.ok (ratedUnqueue_set_rate s (n : ℚ)) ∧
    ratedUnqueue_configure (some n) s =
      Except.ok (ratedUnqueue_set_rate s (n : ℚ)) :=
  ⟨rfl, rfl, rfl, rfl, rfl⟩

/-- A file's lines either contain an unparseable line, in which case
`readDeltas` aborts with "cannot parse", or they all parse, in which case
`readDeltas` succeeds with one delta per line. -/
theorem readDeltas_cases :
    ∀ lines : List (Option Delta),
      (none ∈ lines ∧
        readDeltas lines = Except.error ConfError.cannotParse) ∨
      (¬ none ∈ lines ∧ ∃ ds, readDeltas lines = Except.ok ds ∧
        ds.length = lines.length) := by
  intro lines
  induction lines with
  | nil =>
      right
      constructor
      · simp
      · exact ⟨[], rfl, rfl⟩
  | cons l rest ih =>
      cases l with
      | none => exact Or.inl ⟨by simp, by simp [readDeltas]⟩
      | some d =>
          rcases ih with ⟨hm, herr⟩ | ⟨hnm, ds, hok, hlen⟩
          · exact Or.inl ⟨by simp [hm], by simp [readDeltas, herr]⟩
          · refine Or.inr ⟨by simp [hnm], d :: ds, ?_, by simp [hlen]⟩
            simp [readDeltas, hok]

/-- C9: with the filename argument parsed, `LocFromFile::configure`
returns a negative status with the message "cannot open file %s" exactly
when the file cannot be opened, "cannot parse a line in file %s" exactly
when some line fails to parse as three numbers, and "no locations in file
%s" exactly when every line parses but there are none; otherwise it
succeeds and `_deltas` holds one entry per parsed line, so configuration
errors surface at graph-build time. -/
theorem locFromFile_configure_spec (file : Option (List (Option Delta))) :
    (locFromFile_configure true file = Except.error ConfError.cannotOpen ↔
      file = none) ∧
    (∀ lines, file = some lines →
      ((locFromFile_configure true file =
          Except.error ConfError.cannotParse ↔ none ∈ lines) ∧
       (locFromFile_configure true file =
          Except.error ConfError.noLocations ↔
            (¬ none ∈ lines ∧ lines = [])) ∧
       (∀ ds, locFromFile_configure true file = Except.ok ds →
          ds.length = lines.length))) := by
  cases file with
  | none =>
      refine ⟨by simp [locFromFile_configure], ?_⟩
      intro lines h
      exact absurd h (by simp)
  | some lines =>
      rcases readDeltas_cases lines with ⟨hm, herr⟩ | ⟨hnm, ds, hok, hlen⟩
      · have hconf : locFromFile_configure true (some lines) =
            Except.error ConfError.cannotParse := by
          simp [locFromFile_configure, herr]
        refine ⟨by simp [hconf], ?_⟩
        intro lines' h
        rw [show lines' = lines from by simpa using h.symm]
        refine ⟨by simp [hconf, hm], by simp [hconf, hm], ?_⟩
        intro ds hds
        rw [hconf] at hds
        exact absurd hds (by simp)
      · by_cases hempty : ds = []
        · have hconf : locFromFile_configure true (some lines) =
              Except.error ConfError.noLocations := by
            simp [locFromFile_configure, hok, hempty]
          have hlines : lines = [] := by
            rw [hempty] at hlen
            exact List.length_eq_zero.mp hlen.symm
          refine ⟨by simp [hconf], ?_⟩
          intro lines' h
          rw [show lines' = lines from by simpa using h.symm]
          refine ⟨by rw [hconf]; simp [hlines], by rw [hconf]; simp [hlines],
            ?_⟩
          intro ds' hds'
          rw [hconf] at hds'
          exact absurd hds' (by simp)
        · have hconf : locFromFile_configure true (some lines) =
              Except.ok ds := by
            simp [locFromFile_configure, hok, hempty]
          have hne : lines ≠ [] := by
            intro hl
            rw [hl] at hlen
            exact hempty (List.length_eq_zero.mp hlen)
          refine ⟨by simp [hconf], ?_⟩
          intro lines' h
          rw [show lines' = lines from by simpa using h.symm]
          refine ⟨by simp [hconf, hnm], by simp [hconf, hne], ?_⟩
          intro ds' hds'
          rw [hconf] at hds'
          obtain rfl : ds = ds' := by simpa using hds'
          exact hlen

/-- Witness for C9: a missing file reports "cannot open"; a file whose
second line fails to parse reports "cannot parse". -/
theorem locFromFile_configure_spec_witness :
    locFromFile_configure true none = Except.error ConfError.cannotOpen ∧
    locFromFile_configure true (some [some ⟨1, 2, 3⟩, none]) =
      Except.error ConfError.cannotParse := by
  constructor
  · exact (locFromFile_configure_spec none).1.mpr rfl
  · exact ((locFromFile_configure_spec
      (some [some ⟨1, 2, 3⟩, none])).2 [some ⟨1, 2, 3⟩, none] rfl).1.mpr
      (by simp)

/-- C10: a successful configure establishes the cursor invariant — the
trace is non-empty and `_next` (reset to 0 by the constructor) is in
bounds — and every `choose_new_leg` call preserves it, so the vector
indexing inside `choose_new_leg` is always in bounds. -/
theorem locFromFile_cursor_invariant :
    (∀ (file : Option (List (Option Delta))) (ds : List Delta) (t0 : ℚ),
      locFromFile_configure true file = Except.ok ds →
      cursorInv (locFromFile_mk ds t0)) ∧
    (∀ s : LocFromFile, cursorInv s →
      s.next < s.deltas.length ∧ cursorInv (locFromFile_step s)) := by
  constructor
  · intro file ds t0 hok
    cases file with
    | none => exact absurd hok (by simp [locFromFile_configure])
    | some lines =>
        rcases readDeltas_cases lines with ⟨_, herr⟩ | ⟨_, ds', hok', hlen⟩
        · exact absurd hok (by simp [locFromFile_configure, herr])
        · by_cases hempty : ds' = []
          · exact absurd hok
              (by simp [locFromFile_configure, hok', hempty])
          · have hconf : locFromFile_configure true (some lines) =
                Except.ok ds' := by
              simp [locFromFile_configure, hok', hempty]
            have hds : ds' = ds := by
              simpa using hconf.symm.trans hok
            have hpos : 0 < ds.length := by
              rw [← hds]
              exact List.length_pos.mpr hempty
            exact ⟨hpos, hpos⟩
  · rintro s ⟨hpos, hlt⟩
    refine ⟨hlt, hpos, ?_⟩
    simp only [locFromFile_step, choose_new_leg]
    split <;> omega

/-- Witness for C10: a one-entry trace parsed from a one-line file
satisfies the invariant, and still does after a `choose_new_leg` call. -/
theorem locFromFile_cursor_invariant_witness :
    cursorInv (locFromFile_mk [⟨1, 2, 3⟩] 0) ∧
    cursorInv (locFromFile_step (locFromFile_mk [⟨1, 2, 3⟩] 0)) := by
  have h1 := locFromFile_cursor_invariant.1 (some [some ⟨1, 2, 3⟩])
    [⟨1, 2, 3⟩] 0 rfl
  exact ⟨h1, (locFromFile_cursor_invariant.2 _ h1).2⟩

end Click
